import Mathlib

/-!
Shallow embedding of the csv2db example import script
(`example/import.py`) together with the parts of the csv2db engine that
the script drives.  The helper functions, attribute maps and import
specifications are translated from the example source.  The engine
pieces (value resolution, record-spec evaluation, the importer driver
and insert-statement serialization) are not part of the sources and are
modelled from the specification; each such definition says so in its
doc comment.
-/

set_option autoImplicit false

/-- Single-quote character (codepoint 39), written numerically. -/
def squote : Char := Char.ofNat 39

/-- Opening brace of a Python format placeholder (codepoint 123). -/
def obrace : Char := Char.ofNat 123

/-- Closing brace of a Python format placeholder (codepoint 125). -/
def cbrace : Char := Char.ofNat 125

/-- Character-level model of Python `str.format` with positional
placeholders: every occurrence of the two-character sequence of an
opening and a closing brace in the template is replaced by the next
argument; all other characters pass through verbatim.  (The example's
templates always have exactly as many placeholders as arguments, so the
surplus branches are never reached there.) -/
def formatChars : List Char → List (List Char) → List Char
  | [], _ => []
  | c :: c2 :: cs2, a :: rest =>
    if c = obrace ∧ c2 = cbrace then a ++ formatChars cs2 rest
    else c :: formatChars (c2 :: cs2) (a :: rest)
  | c :: cs, args => c :: formatChars cs args

/-- Python `template.format(args...)` on strings. -/
def pyFormat (template : String) (args : List String) : String :=
  String.mk (formatChars template.data (args.map String.data))

/-- A parsed CSV row: ordered list of column-name/value pairs, as
produced by the delimited-text reader for one input line. -/
abbrev Row := List (String × String)

/-- Python dict lookup `row[c]`; `none` models a fatal `KeyError`. -/
def lookupRow (row : Row) (c : String) : Option String :=
  (row.find? (fun p => p.1 == c)).map (fun p => p.2)

/-- From the source: `quote` wraps a raw value in single quotes using
the Python template consisting of a quote, a placeholder and a quote
(escapes: \x27 is the single quote, \x7b\x7d the placeholder). -/
def quote (value : String) : String :=
  pyFormat "\x27\x7b\x7d\x27" [value]

/-- From the source: `make_name` concatenates first and last name into
a quoted SQL literal via the template quote-placeholder-space-
placeholder-quote; a missing key is a fatal `KeyError` (`none`). -/
def make_name (values : Row) : Option String :=
  match lookupRow values "First", lookupRow values "Last" with
  | some f, some l => some (pyFormat "\x27\x7b\x7d \x7b\x7d\x27" [f, l])
  | _, _ => none

/-- From the source: `has_phone` checks whether the row's Phone column
differs from the placeholder dash; a missing Phone column is a fatal
`KeyError` (`none`). -/
def has_phone (row : Row) : Option Bool :=
  (lookupRow row "Phone").map (fun p => p != "-")

/-- From the source: `OidFactory.__call__` increments the stored oid
counter and returns it as a string; the `row` argument is ignored. -/
def oidCall (oid : Nat) (row : Row) : String × Nat :=
  (toString (oid + 1), oid + 1)

/-- A sequence of invocations of one `OidFactory` instance, one per
listed row argument, starting from counter value `oid`. -/
def oidCalls : List Row → Nat → List String
  | [], _ => []
  | row :: rest, oid => (oidCall oid row).1 :: oidCalls rest (oidCall oid row).2

/-- A realized output record: table name, ordered attribute/value pairs
and the optional business key used for later lookups.  This mirrors the
`DbRecord` objects the importer returns to the example script. -/
structure DbRecord where
  table_name : String
  attributes : List (String × String)
  row_id : Option String
deriving DecidableEq, Repr

/-- Python dict lookup `r.attributes[a]`; `none` models `KeyError`. -/
def lookupAttr (r : DbRecord) (a : String) : Option String :=
  (r.attributes.find? (fun p => p.1 == a)).map (fun p => p.2)

/-- From the source: `department_oid` resolves a department name to the
stored department record's primary key by linear search over the
retained department records; `none` models the fatal `StopIteration`
of `next` on an empty generator (no matching record). -/
def department_oid (departments : List DbRecord) (name : String) : Option String :=
  (departments.find? (fun d => d.row_id == some name)).bind (fun d => lookupAttr d "_oid")

/-- Modelled from the spec (3, 4.1): the value resolvers of csv2db
(`csv2db.py` is not among the sources).  Constant, single column with
conversion, multi column with conversion, dynamic (an `OidFactory`
counter identified by index, the only dynamic resolver the example
uses) and cross reference by table, role and attribute.  Conversion
functions return `none` on a fatal per-value error. -/
inductive Value where
  | constValue (v : String)
  | columnValue (col : String) (convert : String → Option String)
  | multiColumnValue (cols : List String) (convert : Row → Option String)
  | dynamicValue (factory : Nat)
  | xReference (table role attr : String)

/-- The mutable counter state of every `OidFactory` instance, indexed
by factory number. -/
abbrev Counters := Nat → Nat

/-- Store a new counter value for one factory. -/
def updateC (st : Counters) (i v : Nat) : Counters :=
  fun j => if j = i then v else st j

/-- The current run's cross-reference set: records registered under
their (table, role) key, most recent first. -/
abbrev XrefSet := List ((String × String) × DbRecord)

/-- Modelled from the spec (4.2): registered records are keyed by
(table, role); a later registration shadows an earlier one. -/
def lookupXref (xs : XrefSet) (t r : String) : Option DbRecord :=
  (xs.find? (fun p => p.1.1 == t && p.1.2 == r)).map (fun p => p.2)

/-- Modelled from the spec (4.1): the sub-mapping of the named columns
handed to a MultiColumn conversion; a missing column is fatal. -/
def subRow (row : Row) (cols : List String) : Option Row :=
  cols.mapM (fun c => (lookupRow row c).map (fun v => (c, v)))

/-- Modelled from the spec (4.1): resolve one attribute value against
the current row, counter state and cross-reference set.  Only the
dynamic resolver touches the counter state. -/
def resolveValue (counters : Counters) (xrefs : XrefSet) (row : Row) :
    Value → Option (String × Counters)
  | .constValue v => some (v, counters)
  | .columnValue c conv =>
      ((lookupRow row c).bind conv).map (fun v => (v, counters))
  | .multiColumnValue cols conv =>
      ((subRow row cols).bind conv).map (fun v => (v, counters))
  | .dynamicValue f =>
      some ((oidCall (counters f) row).1, updateC counters f (oidCall (counters f) row).2)
  | .xReference t r a =>
      ((lookupXref xrefs t r).bind (fun d => lookupAttr d a)).map (fun v => (v, counters))

/-- Modelled from the spec (4.2): resolve an attribute map in
declaration order, threading the counter state. -/
def resolveAttrs (xrefs : XrefSet) (row : Row) :
    List (String × Value) → Counters → Option (List (String × String) × Counters)
  | [], counters => some ([], counters)
  | (a, v) :: rest, counters =>
    (resolveValue counters xrefs row v).bind (fun p =>
      (resolveAttrs xrefs row rest p.2).map (fun q => ((a, p.1) :: q.1, q.2)))

/-- Declarative template for one output record: ordered attribute map
plus the gating predicate (default: always emit). -/
structure RecordSpec where
  attr_map : List (String × Value)
  condition : Row → Option Bool

/-- Modelled from the spec (4.2): evaluate one RecordSpec against a
row.  A false gating predicate produces no record and leaves the
counter state untouched; a true one resolves every attribute in order
and assembles the record; `none` is a fatal error. -/
def evalRecordSpec (spec : RecordSpec) (table : String) (rowId : Option String)
    (row : Row) (counters : Counters) (xrefs : XrefSet) :
    Option (Option DbRecord × Counters) :=
  match spec.condition row with
  | none => none
  | some false => some (none, counters)
  | some true =>
    (resolveAttrs xrefs row spec.attr_map counters).map
      (fun p => (some ⟨table, p.1, rowId⟩, p.2))

/-- An import specification: table name to role name to RecordSpec, in
declaration order. -/
abbrev ImportSpec := List (String × List (String × RecordSpec))

/-- Modelled from the spec (4.2, 4.3): evaluate the roles of one table
in declaration order for one row, registering each emitted record into
the cross-reference set under its (table, role) key. -/
def evalRoles (table : String) (rowId : Option String) (row : Row) :
    List (String × RecordSpec) → Counters → XrefSet →
    Option (List DbRecord × Counters × XrefSet)
  | [], counters, xrefs => some ([], counters, xrefs)
  | (role, spec) :: rest, counters, xrefs =>
    (evalRecordSpec spec table rowId row counters xrefs).bind (fun p =>
      match p.1 with
      | none => evalRoles table rowId row rest p.2 xrefs
      | some rec =>
        (evalRoles table rowId row rest p.2 (((table, role), rec) :: xrefs)).map
          (fun q => (rec :: q.1, q.2)))

/-- Modelled from the spec (4.3): evaluate every table of the import
specification in declaration order for one row. -/
def evalTables (rowId : Option String) (row : Row) :
    ImportSpec → Counters → XrefSet → Option (List DbRecord × Counters × XrefSet)
  | [], counters, xrefs => some ([], counters, xrefs)
  | (table, roles) :: rest, counters, xrefs =>
    (evalRoles table rowId row roles counters xrefs).bind (fun p =>
      (evalTables rowId row rest p.2.1 p.2.2).map (fun q => (p.1 ++ q.1, q.2)))

/-- Modelled from the spec (4.3): the row_id tag of the records of one
row (the value of the designated id column); a missing id column is a
fatal `KeyError`. -/
def rowIdFor : Option String → Row → Option (Option String)
  | none, _ => some none
  | some c, row => (lookupRow row c).map some

/-- Modelled from the spec (4.3): process the rows in order, producing
the concatenated record sequence and threading counter state and
cross-reference set; any per-row failure aborts the whole run. -/
def importRows (spec : ImportSpec) (id_col : Option String) :
    List Row → Counters → XrefSet → Option (List DbRecord × Counters × XrefSet)
  | [], counters, xrefs => some ([], counters, xrefs)
  | row :: rest, counters, xrefs =>
    (rowIdFor id_col row).bind (fun rid =>
      (evalTables rid row spec counters xrefs).bind (fun p =>
        (importRows spec id_col rest p.2.1 p.2.2).map (fun q => (p.1 ++ q.1, q.2))))

/-- Modelled from the spec (4.3): `CsvImporter.import_data` over an
already-parsed row list, starting with an empty cross-reference set.
The resulting counter state is returned because the factory instances
live at module level and persist into the next import pass. -/
def import_data (spec : ImportSpec) (rows : List Row) (id_col : Option String)
    (counters : Counters) : Option (List DbRecord × Counters) :=
  (importRows spec id_col rows counters []).map (fun p => (p.1, p.2.1))

/-- Modelled from the spec (4.4): `DbRecord.insert_statement`. -/
def joinComma : List String → String
  | [] => ""
  | [x] => x
  | x :: y :: rest => x ++ ", " ++ joinComma (y :: rest)

/-- Modelled from the spec (4.4): one textual insert statement per
record, attributes in declared order, values verbatim. -/
def insert_statement (r : DbRecord) : String :=
  "INSERT INTO " ++ r.table_name ++ " (" ++ joinComma (r.attributes.map (fun p => p.1)) ++
    ") VALUES (" ++ joinComma (r.attributes.map (fun p => p.2)) ++ ");\n"

/-- The SQL accumulation loop of `main`: append each record's insert
statement in order. -/
def sqlOf (recs : List DbRecord) : String :=
  recs.foldl (fun s r => s ++ insert_statement r) ""

-- Import specifications, translated from the example source.
-- The module-level `OidFactory()` instances are numbered: 0 for
-- PUBLIC_OBJECT_MAP, 1 for DEPARTMENT_MAP, 2 for EMPLOYEE_MAP and
-- 3 for PHONE_MAP; each map has its own instance, created once.

/-- From the source: the shared publicobject attribute map with its own
`OidFactory` (factory 0) and the constant insertion date. -/
def PUBLIC_OBJECT_MAP : List (String × Value) :=
  [("_oid", Value.dynamicValue 0),
   ("date", Value.constValue "now()")]

/-- From the source: the department attribute map with its own
`OidFactory` (factory 1), a cross reference to the sole publicobject
record of the row, and the quoted name and floor columns. -/
def DEPARTMENT_MAP : List (String × Value) :=
  [("_oid", Value.dynamicValue 1),
   ("_publicobj_oid", Value.xReference "publicobject" "sole" "_oid"),
   ("name", Value.columnValue "Department" (fun s => some (quote s))),
   ("floor", Value.columnValue "Floor" (fun s => some (quote s)))]

/-- From the source: the department import specification. -/
def DEP_IMPORT_SPEC : ImportSpec :=
  [("publicobject", [("sole", ⟨PUBLIC_OBJECT_MAP, fun _ => some true⟩)]),
   ("departments", [("sole", ⟨DEPARTMENT_MAP, fun _ => some true⟩)])]

/-- From the source: the employee attribute map with its own
`OidFactory` (factory 2), a cross reference to the row's emp
publicobject record, the department lookup conversion over the
retained department records, and the concatenated name.  The retained
department records are the module-level `departments` list, threaded
here as an explicit parameter. -/
def EMPLOYEE_MAP (departments : List DbRecord) : List (String × Value) :=
  [("_oid", Value.dynamicValue 2),
   ("_publicobj_oid", Value.xReference "publicobject" "emp" "_oid"),
   ("department_oid", Value.columnValue "Department" (department_oid departments)),
   ("name", Value.multiColumnValue ["First", "Last"] make_name)]

/-- From the source: the phone attribute map with its own `OidFactory`
(factory 3), cross references to the row's phone publicobject record
and employee record, and the quoted phone number. -/
def PHONE_MAP : List (String × Value) :=
  [("_oid", Value.dynamicValue 3),
   ("_publicobj_oid", Value.xReference "publicobject" "phone" "_oid"),
   ("_employee_oid", Value.xReference "employees" "sole" "_oid"),
   ("number", Value.columnValue "Phone" (fun s => some (quote s)))]

/-- From the source: the phones-table RecordSpec, gated by `has_phone`. -/
def PHONES_SPEC : RecordSpec := ⟨PHONE_MAP, has_phone⟩

/-- From the source: the employee import specification; the phone
publicobject role and the phones role are gated by `has_phone`. -/
def EMP_IMPORT_SPEC (departments : List DbRecord) : ImportSpec :=
  [("publicobject",
     [("emp", ⟨PUBLIC_OBJECT_MAP, fun _ => some true⟩),
      ("phone", ⟨PUBLIC_OBJECT_MAP, has_phone⟩)]),
   ("employees", [("sole", ⟨EMPLOYEE_MAP departments, fun _ => some true⟩)]),
   ("phones", [("sole", PHONES_SPEC)])]

/-- All counters start at zero, as in `OidFactory.__init__`. -/
def zeroC : Counters := fun _ => 0

/-- The record sequence of `main`: run the department pass with the
Department id column, retain the departments-table records, run the
employee pass with the same factory instances, and keep all records in
emission order. -/
def mainRecords (depRows empRows : List Row) : Option (List DbRecord) :=
  (import_data DEP_IMPORT_SPEC depRows (some "Department") zeroC).bind (fun p =>
    (import_data (EMP_IMPORT_SPEC (p.1.filter (fun r => r.table_name == "departments")))
        empRows none p.2).map (fun q => p.1 ++ q.1))

/-- The SQL text of `main`: department-pass statements first, then
employee-pass statements, exactly as the two accumulation loops run. -/
def mainModel (depRows empRows : List Row) : Option String :=
  (import_data DEP_IMPORT_SPEC depRows (some "Department") zeroC).bind (fun p =>
    (import_data (EMP_IMPORT_SPEC (p.1.filter (fun r => r.table_name == "departments")))
        empRows none p.2).map (fun q => sqlOf p.1 ++ sqlOf q.1))

/-- The two-row department input of the round-trip scenario. -/
def depRowsS : List Row :=
  [[("Department", "Sales"), ("Floor", "3")],
   [("Department", "Eng"), ("Floor", "4")]]

/-- Two employee rows: one with a phone number, one with the dash
placeholder. -/
def empRowsS : List Row :=
  [[("Department", "Sales"), ("First", "Jane"), ("Last", "Doe"), ("Phone", "555-1234")],
   [("Department", "Eng"), ("First", "John"), ("Last", "Smith"), ("Phone", "-")]]

/-- A sample retained department cache, as the department pass of the
scenario produces it. -/
def sampleDeps : List DbRecord :=
  [⟨"departments",
    [("_oid", "1"), ("_publicobj_oid", "1"), ("name", "\x27Sales\x27"), ("floor", "\x273\x27")],
    some "Sales"⟩,
   ⟨"departments",
    [("_oid", "2"), ("_publicobj_oid", "2"), ("name", "\x27Eng\x27"), ("floor", "\x274\x27")],
    some "Eng"⟩]

/-- An employee row whose Phone column is the dash placeholder. -/
def rowDash : Row :=
  [("Department", "Sales"), ("First", "John"), ("Last", "Smith"), ("Phone", "-")]

/-- An employee row with a real phone number. -/
def rowPhone : Row :=
  [("Department", "Sales"), ("First", "Jane"), ("Last", "Doe"), ("Phone", "555-1234")]

/-- The table names of an import run's records, in emission order. -/
def tablesOf (o : Option (List DbRecord × Counters)) : Option (List String) :=
  o.map (fun p => p.1.map (fun r => r.table_name))

/-- The publicobject primary keys of a record sequence, in order. -/
def pubOids (recs : List DbRecord) : List String :=
  recs.filterMap (fun r => if r.table_name == "publicobject" then lookupAttr r "_oid" else none)

-- Helper lemmas about the Python format templates.

theorem formatChars_quote (l : List Char) :
    formatChars "\x27\x7b\x7d\x27".data [l] = squote :: (l ++ [squote]) := rfl

theorem formatChars_name (f l : List Char) :
    formatChars "\x27\x7b\x7d \x7b\x7d\x27".data [f, l] =
      squote :: (f ++ (" ".data ++ (l ++ [squote]))) := rfl

theorem squote_data : "\x27".data = [squote] := by decide

theorem quote_append (s : String) : quote s = "\x27" ++ s ++ "\x27" := by
  apply String.ext
  have h1 : (quote s).data = squote :: (s.data ++ [squote]) := formatChars_quote s.data
  rw [h1, String.data_append, String.data_append, squote_data]
  simp

theorem make_name_append (vals : Row) (f l : String)
    (hf : lookupRow vals "First" = some f) (hl : lookupRow vals "Last" = some l) :
    make_name vals = some ("\x27" ++ f ++ " " ++ l ++ "\x27") := by
  have h1 : make_name vals = some (pyFormat "\x27\x7b\x7d \x7b\x7d\x27" [f, l]) := by
    rw [make_name, hf, hl]
  rw [h1]
  congr 1
  apply String.ext
  have h2 : (pyFormat "\x27\x7b\x7d \x7b\x7d\x27" [f, l]).data =
      squote :: (f.data ++ (" ".data ++ (l.data ++ [squote]))) := formatChars_name f.data l.data
  rw [h2]
  rw [String.data_append, String.data_append, String.data_append, squote_data]
  simp
  decide

/-- C10: `quote` performs no escaping: for every string `s`, including
strings that contain single quotes or other SQL metacharacters,
`quote s` is exactly `s` wrapped in one leading and one trailing
single-quote character; the content passes through verbatim. -/
theorem C10_quote_no_escaping (s : String) : quote s = "\x27" ++ s ++ "\x27" :=
  quote_append s

/-- C2: a single `OidFactory` instance invoked once per row of any row
list, starting from its initial counter of zero, yields exactly the
strings of 1, 2, ..., N in order: starting at 1, increasing by exactly
1 per invocation, with no gaps, for any N of rows (the row arguments
are irrelevant). -/
theorem C2_oid_sequence (rows : List Row) :
    oidCalls rows 0 = (List.range' 1 rows.length).map toString := by
  suffices h : ∀ c, oidCalls rows c = (List.range' (c + 1) rows.length).map toString from h 0
  induction rows with
  | nil => intro c; rfl
  | cons r rs ih =>
    intro c
    simp only [oidCalls, oidCall, List.length_cons, List.range'_succ, List.map_cons]
    exact congrArg (fun t => toString (c + 1) :: t) (ih (c + 1))

/-- C1 (counterexample): on the two-row department input the claim
asserts the two departments records carry _oid 3 and 4; the run
actually gives them _oid 1 and 2, because DEPARTMENT_MAP has its own
OidFactory instance, distinct from PUBLIC_OBJECT_MAP's. -/
theorem C1_departments_roundtrip_counterexample :
    ¬ ((import_data DEP_IMPORT_SPEC depRowsS (some "Department") zeroC).map
        (fun p => (p.1.filter (fun r => r.table_name == "departments")).map
          (fun r => lookupAttr r "_oid")) =
      some [some "3", some "4"]) := by decide

/-- C1 (amended): the department import over the two-row input yields
exactly four records in order: two publicobject records with _oid 1
and 2, and two departments records with _oid 1 and 2 (from the
department map's own counter), whose _publicobj_oid reference the
publicobject _oid 1 and 2 respectively, with quoted name Sales/Eng and
floor 3/4, each tagged with the Department row_id. -/
theorem C1_departments_roundtrip_amended :
    (import_data DEP_IMPORT_SPEC depRowsS (some "Department") zeroC).map (fun p => p.1) =
      some [⟨"publicobject", [("_oid", "1"), ("date", "now()")], some "Sales"⟩,
            ⟨"departments",
             [("_oid", "1"), ("_publicobj_oid", "1"),
              ("name", "\x27Sales\x27"), ("floor", "\x273\x27")], some "Sales"⟩,
            ⟨"publicobject", [("_oid", "2"), ("date", "now()")], some "Eng"⟩,
            ⟨"departments",
             [("_oid", "2"), ("_publicobj_oid", "2"),
              ("name", "\x27Eng\x27"), ("floor", "\x274\x27")], some "Eng"⟩] := by decide

/-- C5: `has_phone` is true exactly when the Phone column differs from
the dash placeholder; consequently the employee row with a dash
produces no phone-role publicobject record and no phones record (two
records in all), while the row with a real number produces both (four
records in all). -/
theorem C5_phone_gating (row : Row) (p : String) (h : lookupRow row "Phone" = some p) :
    has_phone row = some (p != "-") ∧
    tablesOf (import_data (EMP_IMPORT_SPEC sampleDeps) [rowDash] none zeroC) =
      some ["publicobject", "employees"] ∧
    tablesOf (import_data (EMP_IMPORT_SPEC sampleDeps) [rowPhone] none zeroC) =
      some ["publicobject", "publicobject", "employees", "phones"] :=
  ⟨by simp [has_phone, h], by decide, by decide⟩

/-- C5 witness: the theorem applied to the concrete row with the real
phone number. -/
theorem C5_phone_gating_witness :
    has_phone rowPhone = some ("555-1234" != "-") ∧
    tablesOf (import_data (EMP_IMPORT_SPEC sampleDeps) [rowDash] none zeroC) =
      some ["publicobject", "employees"] ∧
    tablesOf (import_data (EMP_IMPORT_SPEC sampleDeps) [rowPhone] none zeroC) =
      some ["publicobject", "publicobject", "employees", "phones"] :=
  C5_phone_gating rowPhone "555-1234" (by decide)

/-- C6: for every row sub-mapping holding First and Last values,
`make_name` returns the single quoted SQL literal of the First value, a
space and the Last value; when either key is absent the conversion
fails fatally (a `KeyError`, modelled as `none`) rather than producing
a partial name. -/
theorem C6_make_name_concat (vals : Row) (f l : String)
    (hf : lookupRow vals "First" = some f) (hl : lookupRow vals "Last" = some l) :
    make_name vals = some ("\x27" ++ f ++ " " ++ l ++ "\x27") ∧
    ∀ vals2 : Row, lookupRow vals2 "First" = none ∨ lookupRow vals2 "Last" = none →
      make_name vals2 = none := by
  refine ⟨make_name_append vals f l hf hl, ?_⟩
  intro vals2 h2
  rcases hf2 : lookupRow vals2 "First" with _ | f2
  · unfold make_name
    rw [hf2]
  · rcases hl2 : lookupRow vals2 "Last" with _ | l2
    · unfold make_name
      rw [hf2, hl2]
    · rcases h2 with h2 | h2
      · rw [hf2] at h2; exact Option.noConfusion h2
      · rw [hl2] at h2; exact Option.noConfusion h2

/-- C6 witness: the theorem applied to the Jane Doe row. -/
theorem C6_make_name_concat_witness :
    make_name [("First", "Jane"), ("Last", "Doe")] =
      some ("\x27" ++ "Jane" ++ " " ++ "Doe" ++ "\x27") :=
  (C6_make_name_concat [("First", "Jane"), ("Last", "Doe")] "Jane" "Doe"
    (by decide) (by decide)).1

/-- C3: whenever a RecordSpec's gating predicate evaluates to false on
a row, evaluating that RecordSpec produces no record at all and returns
the counter state unchanged, so no dynamic resolver of the spec is
invoked and no identifier is consumed by the skipped record. -/
theorem C3_gating_skips_resolvers (spec : RecordSpec) (table : String)
    (rowId : Option String) (row : Row) (counters : Counters) (xrefs : XrefSet)
    (h : spec.condition row = some false) :
    evalRecordSpec spec table rowId row counters xrefs = some (none, counters) := by
  unfold evalRecordSpec
  rw [h]

/-- C3 witness: the phones RecordSpec on the dash row. -/
theorem C3_gating_skips_resolvers_witness :
    PHONES_SPEC.condition rowDash = some false ∧
    evalRecordSpec PHONES_SPEC "phones" none rowDash zeroC [] = some (none, zeroC) :=
  ⟨by decide,
   C3_gating_skips_resolvers PHONES_SPEC "phones" none rowDash zeroC [] (by decide)⟩

/-- The first record whose row_id matches is the one `find?` returns
when everything before it fails the match. -/
theorem find?_first_match (name : String) :
    ∀ (pre : List DbRecord) (d : DbRecord) (post : List DbRecord),
      d.row_id = some name → (∀ e ∈ pre, e.row_id ≠ some name) →
      (pre ++ d :: post).find? (fun x => x.row_id == some name) = some d := by
  intro pre
  induction pre with
  | nil =>
    intro d post hd _
    exact List.find?_cons_of_pos _ (by simp [hd])
  | cons e es ih =>
    intro d post hd hpre
    rw [List.cons_append, List.find?_cons_of_neg]
    · exact ih d post hd (fun x hx => hpre x (List.mem_cons_of_mem e hx))
    · simp [hpre e (List.mem_cons_self e es)]

/-- C4: over a departments sequence whose records all carry an _oid
attribute, `department_oid` succeeds exactly when some record's row_id
equals the name; on success it returns the _oid of the first such
record in sequence order, and when no record matches it fails fatally
(`none`, the raised `StopIteration`) instead of yielding a dangling
reference. -/
theorem C4_department_oid_lookup (deps : List DbRecord) (name : String)
    (hoid : ∀ d ∈ deps, (lookupAttr d "_oid").isSome) :
    ((department_oid deps name).isSome ↔ ∃ d ∈ deps, d.row_id = some name) ∧
    ∀ pre d post, deps = pre ++ d :: post → d.row_id = some name →
      (∀ e ∈ pre, e.row_id ≠ some name) →
      department_oid deps name = lookupAttr d "_oid" := by
  constructor
  · unfold department_oid
    rcases hf : deps.find? (fun d => d.row_id == some name) with _ | d
    · rw [hf]
      rw [List.find?_eq_none] at hf
      simp only [Option.none_bind, Option.isSome_none, Bool.false_eq_true, false_iff]
      rintro ⟨d, hd, hrow⟩
      exact hf d hd (by simp [hrow])
    · have hp := List.find?_some hf
      have hm := List.mem_of_find?_eq_some hf
      rw [hf]
      simp only [Option.some_bind]
      constructor
      · intro _
        exact ⟨d, hm, by simpa using hp⟩
      · intro _
        exact hoid d hm
  · intro pre d post hdeps hd hpre
    subst hdeps
    unfold department_oid
    rw [find?_first_match name pre d post hd hpre]
    rfl

/-- C4 witness: the theorem applied to the sample department cache. -/
theorem C4_department_oid_lookup_witness :
    (department_oid sampleDeps "Sales").isSome ↔
      ∃ d ∈ sampleDeps, d.row_id = some "Sales" :=
  (C4_department_oid_lookup sampleDeps "Sales" (by decide)).1

/-- Mapping a value into a pair with the current counters never yields
a changed counter component. -/
theorem map_pair_counters {o : Option String} {counters c2 : Counters} {val : String}
    (h : o.map (fun v => (v, counters)) = some (val, c2)) : c2 = counters := by
  cases o with
  | none => exact Option.noConfusion h
  | some s =>
    injection h with h1
    cases h1
    rfl

/-- C8: every non-dynamic resolver (constant, column conversion such as
`quote` or `department_oid`, multi-column conversion such as
`make_name`, cross reference) resolves without changing any factory
counter: conversions are pure and consume no identifiers; the retained
departments list is read-only context, not part of the mutable state. -/
theorem C8_conversions_pure (counters : Counters) (xrefs : XrefSet) (row : Row)
    (v : Value) (h : ∀ g, v ≠ Value.dynamicValue g) (val : String) (c2 : Counters)
    (heq : resolveValue counters xrefs row v = some (val, c2)) : c2 = counters := by
  cases v with
  | dynamicValue g => exact absurd rfl (h g)
  | constValue s =>
    injection heq with h1
    cases h1
    rfl
  | columnValue c conv => exact map_pair_counters heq
  | multiColumnValue cols conv => exact map_pair_counters heq
  | xReference t r a => exact map_pair_counters heq

/-- C8 witness: the quoted Department column of the phone row. -/
theorem C8_conversions_pure_witness :
    ∃ r, resolveValue zeroC [] rowPhone
        (Value.columnValue "Department" (fun s => some (quote s))) = some r ∧
      r.2 = zeroC := by
  refine ⟨(quote "Sales", zeroC), rfl, ?_⟩
  exact C8_conversions_pure zeroC [] rowPhone
    (Value.columnValue "Department" (fun s => some (quote s)))
    (fun g hg => Value.noConfusion hg) (quote "Sales") zeroC rfl

/-- C9: whenever the combined run of `main` succeeds, the department
pass ran to completion first, the employee importer was built with
exactly the departments-table records of that completed pass as its
lookup cache (and with the department pass's final counter state), and
the output SQL is all department-pass statements followed by all
employee-pass statements. -/
theorem C9_passes_ordered (depRows empRows : List Row) (sql : String)
    (h : mainModel depRows empRows = some sql) :
    ∃ depRecs c1 empRecs c2,
      import_data DEP_IMPORT_SPEC depRows (some "Department") zeroC = some (depRecs, c1) ∧
      import_data (EMP_IMPORT_SPEC (depRecs.filter (fun r => r.table_name == "departments")))
          empRows none c1 = some (empRecs, c2) ∧
      sql = sqlOf depRecs ++ sqlOf empRecs := by
  unfold mainModel at h
  rcases h1 : import_data DEP_IMPORT_SPEC depRows (some "Department") zeroC with _ | ⟨recs1, c1⟩
  · rw [h1] at h
    exact Option.noConfusion h
  · rw [h1] at h
    simp only [Option.some_bind] at h
    rcases h2 : import_data
        (EMP_IMPORT_SPEC (recs1.filter (fun r => r.table_name == "departments")))
        empRows none c1 with _ | ⟨recs2, c2⟩
    · rw [h2] at h
      exact Option.noConfusion h
    · rw [h2] at h
      injection h with h3
      exact ⟨recs1, c1, recs2, c2, h1 ▸ rfl, h2, h3.symm⟩

/-- C9 witness: the concrete scenario run. -/
theorem C9_passes_ordered_witness :
    ∃ sql, mainModel depRowsS empRowsS = some sql ∧
      ∃ depRecs c1 empRecs c2,
        import_data DEP_IMPORT_SPEC depRowsS (some "Department") zeroC = some (depRecs, c1) ∧
        import_data (EMP_IMPORT_SPEC (depRecs.filter (fun r => r.table_name == "departments")))
            empRowsS none c1 = some (empRecs, c2) ∧
        sql = sqlOf depRecs ++ sqlOf empRecs := by
  obtain ⟨sql, hs⟩ : ∃ s, mainModel depRowsS empRowsS = some s := ⟨_, rfl⟩
  exact ⟨sql, hs, C9_passes_ordered depRowsS empRowsS sql hs⟩

-- Head-reduction equations for the engine evaluators.

theorem evalRecordSpec_none (S : RecordSpec) (t : String) (rid : Option String)
    (row : Row) (c : Counters) (x : XrefSet) (h : S.condition row = none) :
    evalRecordSpec S t rid row c x = none := by
  unfold evalRecordSpec
  rw [h]

theorem evalRecordSpec_false (S : RecordSpec) (t : String) (rid : Option String)
    (row : Row) (c : Counters) (x : XrefSet) (h : S.condition row = some false) :
    evalRecordSpec S t rid row c x = some (none, c) := by
  unfold evalRecordSpec
  rw [h]

theorem evalRecordSpec_true (S : RecordSpec) (t : String) (rid : Option String)
    (row : Row) (c : Counters) (x : XrefSet) (h : S.condition row = some true) :
    evalRecordSpec S t rid row c x =
      (resolveAttrs x row S.attr_map c).map (fun p => (some ⟨t, p.1, rid⟩, p.2)) := by
  unfold evalRecordSpec
  rw [h]

theorem evalRoles_cons (t role : String) (S : RecordSpec) (rest : List (String × RecordSpec))
    (rid : Option String) (row : Row) (c : Counters) (x : XrefSet) :
    evalRoles t rid row ((role, S) :: rest) c x =
      (evalRecordSpec S t rid row c x).bind (fun p =>
        match p.1 with
        | none => evalRoles t rid row rest p.2 x
        | some rec =>
          (evalRoles t rid row rest p.2 (((t, role), rec) :: x)).map
            (fun q => (rec :: q.1, q.2))) := rfl

theorem evalTables_cons (t : String) (roles : List (String × RecordSpec))
    (rest : ImportSpec) (rid : Option String) (row : Row) (c : Counters) (x : XrefSet) :
    evalTables rid row ((t, roles) :: rest) c x =
      (evalRoles t rid row roles c x).bind (fun p =>
        (evalTables rid row rest p.2.1 p.2.2).map (fun q => (p.1 ++ q.1, q.2))) := rfl

theorem importRows_cons (S : ImportSpec) (id_col : Option String) (row : Row)
    (rest : List Row) (c : Counters) (x : XrefSet) :
    importRows S id_col (row :: rest) c x =
      (rowIdFor id_col row).bind (fun rid =>
        (evalTables rid row S c x).bind (fun p =>
          (importRows S id_col rest p.2.1 p.2.2).map (fun q => (p.1 ++ q.1, q.2)))) := rfl

-- Which factory counters an attribute map, a role list and a whole
-- import specification can touch.

/-- The factory indices of the dynamic resolvers of an attribute map. -/
def dynOfAttrs (attrs : List (String × Value)) : List Nat :=
  attrs.filterMap (fun p =>
    match p.2 with
    | Value.dynamicValue g => some g
    | _ => none)

/-- The factory indices of a role list. -/
def dynOfRoles (roles : List (String × RecordSpec)) : List Nat :=
  roles.bind (fun r => dynOfAttrs r.2.attr_map)

/-- The factory indices of an import specification. -/
def dynOfTables (spec : ImportSpec) : List Nat :=
  spec.bind (fun t => dynOfRoles t.2)

theorem mem_dynOfAttrs_cons {f : Nat} {a : String} {v : Value}
    {rest : List (String × Value)} :
    f ∈ dynOfAttrs ((a, v) :: rest) ↔
      (∃ g, v = Value.dynamicValue g ∧ f = g) ∨ f ∈ dynOfAttrs rest := by
  cases v <;> simp [dynOfAttrs, List.filterMap_cons]

/-- Resolving a single value leaves every factory counter untouched
except the factory of a dynamic resolver. -/
theorem resolveValue_pres (c : Counters) (x : XrefSet) (row : Row) (v : Value)
    (val : String) (c2 : Counters) (h : resolveValue c x row v = some (val, c2))
    (f : Nat) (hf : ∀ g, v = Value.dynamicValue g → f ≠ g) : c2 f = c f := by
  cases v with
  | dynamicValue g =>
    injection h with h1
    cases h1
    unfold updateC
    rw [if_neg (hf g rfl)]
  | constValue s =>
    injection h with h1
    cases h1
    rfl
  | columnValue col conv => exact congrFun (map_pair_counters h) f
  | multiColumnValue cols conv => exact congrFun (map_pair_counters h) f
  | xReference t r a => exact congrFun (map_pair_counters h) f

/-- Resolving an attribute map leaves every factory counter untouched
except the factories of its dynamic resolvers. -/
theorem resolveAttrs_pres (x : XrefSet) (row : Row) :
    ∀ (attrs : List (String × Value)) (c : Counters) (vals : List (String × String))
      (c2 : Counters), resolveAttrs x row attrs c = some (vals, c2) →
      ∀ f, f ∉ dynOfAttrs attrs → c2 f = c f := by
  intro attrs
  induction attrs with
  | nil =>
    intro c vals c2 h f _
    injection h with h1
    cases h1
    rfl
  | cons av rest ih =>
    rcases av with ⟨a, v⟩
    intro c vals c2 h f hf
    unfold resolveAttrs at h
    rcases hv : resolveValue c x row v with _ | ⟨val1, cm⟩
    · rw [hv] at h
      exact Option.noConfusion h
    · rw [hv] at h
      simp only [Option.some_bind] at h
      rcases hr : resolveAttrs x row rest cm with _ | ⟨vals2, cr⟩
      · rw [hr] at h
        exact Option.noConfusion h
      · rw [hr] at h
        simp only [Option.map_some'] at h
        injection h with h1
        have hc : cr = c2 := congrArg Prod.snd h1
        have htail : f ∉ dynOfAttrs rest := by
          intro hmem
          exact hf (mem_dynOfAttrs_cons.mpr (Or.inr hmem))
        have hhead : ∀ g, v = Value.dynamicValue g → f ≠ g := by
          intro g hg hfg
          exact hf (mem_dynOfAttrs_cons.mpr (Or.inl ⟨g, hg, hfg⟩))
        rw [← hc, ih cm vals2 cr hr f htail, resolveValue_pres c x row v val1 cm hv f hhead]

/-- A successfully evaluated RecordSpec only emits a record of its own
table and only touches its own dynamic factories. -/
theorem evalRecordSpec_shape (S : RecordSpec) (t : String) (rid : Option String)
    (row : Row) (c : Counters) (x : XrefSet) (orec : Option DbRecord) (c1 : Counters)
    (h : evalRecordSpec S t rid row c x = some (orec, c1)) :
    (∀ rec, orec = some rec → rec.table_name = t) ∧
    (∀ f, f ∉ dynOfAttrs S.attr_map → c1 f = c f) := by
  rcases hc : S.condition row with _ | b
  · rw [evalRecordSpec_none S t rid row c x hc] at h
    exact Option.noConfusion h
  · cases b with
    | false =>
      rw [evalRecordSpec_false S t rid row c x hc] at h
      injection h with h1
      cases h1
      exact ⟨fun rec hrec => Option.noConfusion hrec, fun f _ => rfl⟩
    | true =>
      rw [evalRecordSpec_true S t rid row c x hc] at h
      rcases hr : resolveAttrs x row S.attr_map c with _ | ⟨vals, cr⟩
      · rw [hr] at h
        exact Option.noConfusion h
      · rw [hr] at h
        simp only [Option.map_some'] at h
        injection h with h1
        cases h1
        constructor
        · rintro rec hrec
          injection hrec with h2
          rw [← h2]
        · exact resolveAttrs_pres x row S.attr_map c vals c1 hr

theorem evalRoles_cons_none (t role : String) (S : RecordSpec)
    (rest : List (String × RecordSpec)) (rid : Option String) (row : Row)
    (c : Counters) (x : XrefSet) (c1 : Counters)
    (h : evalRecordSpec S t rid row c x = some (none, c1)) :
    evalRoles t rid row ((role, S) :: rest) c x = evalRoles t rid row rest c1 x := by
  rw [evalRoles_cons, h]
  rfl

theorem evalRoles_cons_some (t role : String) (S : RecordSpec)
    (rest : List (String × RecordSpec)) (rid : Option String) (row : Row)
    (c : Counters) (x : XrefSet) (rec : DbRecord) (c1 : Counters)
    (h : evalRecordSpec S t rid row c x = some (some rec, c1)) :
    evalRoles t rid row ((role, S) :: rest) c x =
      (evalRoles t rid row rest c1 (((t, role), rec) :: x)).map
        (fun q => (rec :: q.1, q.2)) := by
  rw [evalRoles_cons, h]
  rfl

/-- A successfully evaluated role list only emits records of its own
table and only touches its own dynamic factories. -/
theorem evalRoles_shape (t : String) (rid : Option String) (row : Row) :
    ∀ (roles : List (String × RecordSpec)) (c : Counters) (x : XrefSet)
      (recs : List DbRecord) (c2 : Counters) (x2 : XrefSet),
      evalRoles t rid row roles c x = some (recs, c2, x2) →
      (∀ r ∈ recs, r.table_name = t) ∧
      (∀ f, f ∉ dynOfRoles roles → c2 f = c f) := by
  intro roles
  induction roles with
  | nil =>
    intro c x recs c2 x2 h
    injection h with h1
    have hr : ([] : List DbRecord) = recs := congrArg Prod.fst h1
    have hc : c = c2 := congrArg (fun p => p.2.1) h1
    rw [← hr, ← hc]
    exact ⟨fun r hr2 => absurd hr2 (List.not_mem_nil r), fun f _ => rfl⟩
  | cons rs rest ih =>
    rcases rs with ⟨role, S⟩
    intro c x recs c2 x2 h
    rcases hrs : evalRecordSpec S t rid row c x with _ | ⟨orec, c1⟩
    · rw [evalRoles_cons, hrs] at h
      exact Option.noConfusion h
    · obtain ⟨hshape, hpres⟩ := evalRecordSpec_shape S t rid row c x orec c1 hrs
      have hmemc : ∀ f, f ∉ dynOfRoles ((role, S) :: rest) →
          f ∉ dynOfAttrs S.attr_map ∧ f ∉ dynOfRoles rest := by
        intro f hf
        constructor
        · intro hm
          exact hf (by simp [dynOfRoles]; exact Or.inl hm)
        · intro hm
          exact hf (by
            simp only [dynOfRoles, List.cons_bind, List.mem_append]
            exact Or.inr (by simpa [dynOfRoles] using hm))
      cases orec with
      | none =>
        rw [evalRoles_cons_none t role S rest rid row c x c1 hrs] at h
        obtain ⟨hrec, hcnt⟩ := ih c1 x recs c2 x2 h
        refine ⟨hrec, fun f hf => ?_⟩
        obtain ⟨hf1, hf2⟩ := hmemc f hf
        rw [hcnt f hf2, hpres f hf1]
      | some rec =>
        rw [evalRoles_cons_some t role S rest rid row c x rec c1 hrs] at h
        rcases he : evalRoles t rid row rest c1 (((t, role), rec) :: x) with
          _ | ⟨recs1, cq, xq⟩
        · rw [he] at h
          exact Option.noConfusion h
        · rw [he] at h
          simp only [Option.map_some'] at h
          injection h with h1
          have hrecs : rec :: recs1 = recs := congrArg Prod.fst h1
          have hcq : cq = c2 := congrArg (fun p => p.2.1) h1
          obtain ⟨hrec1, hcnt1⟩ := ih c1 (((t, role), rec) :: x) recs1 cq xq he
          rw [← hrecs, ← hcq]
          constructor
          · intro r hr2
            rcases List.mem_cons.mp hr2 with hr3 | hr3
            · rw [hr3]
              exact hshape rec rfl
            · exact hrec1 r hr3
          · intro f hf
            obtain ⟨hf1, hf2⟩ := hmemc f hf
            rw [hcnt1 f hf2, hpres f hf1]

/-- A successfully evaluated import specification only emits records of
its listed tables and only touches its listed dynamic factories. -/
theorem evalTables_shape (rid : Option String) (row : Row) :
    ∀ (spec : ImportSpec) (c : Counters) (x : XrefSet)
      (recs : List DbRecord) (c2 : Counters) (x2 : XrefSet),
      evalTables rid row spec c x = some (recs, c2, x2) →
      (∀ r ∈ recs, ∃ tr ∈ spec, r.table_name = tr.1) ∧
      (∀ f, f ∉ dynOfTables spec → c2 f = c f) := by
  intro spec
  induction spec with
  | nil =>
    intro c x recs c2 x2 h
    injection h with h1
    have hr : ([] : List DbRecord) = recs := congrArg Prod.fst h1
    have hc : c = c2 := congrArg (fun p => p.2.1) h1
    rw [← hr, ← hc]
    exact ⟨fun r hr2 => absurd hr2 (List.not_mem_nil r), fun f _ => rfl⟩
  | cons ts rest ih =>
    rcases ts with ⟨t, roles⟩
    intro c x recs c2 x2 h
    rw [evalTables_cons] at h
    rcases hr1 : evalRoles t rid row roles c x with _ | ⟨recs1, cm, xm⟩
    · rw [hr1] at h
      exact Option.noConfusion h
    · rw [hr1] at h
      simp only [Option.some_bind] at h
      rcases hr2 : evalTables rid row rest cm xm with _ | ⟨recs2, cr, xr⟩
      · rw [hr2] at h
        exact Option.noConfusion h
      · rw [hr2] at h
        simp only [Option.map_some'] at h
        injection h with h1
        have hrecs : recs1 ++ recs2 = recs := congrArg Prod.fst h1
        have hcr : cr = c2 := congrArg (fun p => p.2.1) h1
        obtain ⟨hrecA, hcntA⟩ := evalRoles_shape t rid row roles c x recs1 cm xm hr1
        obtain ⟨hrecB, hcntB⟩ := ih cm xm recs2 cr xr hr2
        rw [← hrecs, ← hcr]
        constructor
        · intro r hr3
          rcases List.mem_append.mp hr3 with hr4 | hr4
          · exact ⟨(t, roles), List.mem_cons_self _ _, hrecA r hr4⟩
          · obtain ⟨tr, htr, heq⟩ := hrecB r hr4
            exact ⟨tr, List.mem_cons_of_mem _ htr, heq⟩
        · intro f hf
          have hf1 : f ∉ dynOfRoles roles := by
            intro hm
            exact hf (by
              simp only [dynOfTables, List.cons_bind, List.mem_append]
              exact Or.inl hm)
          have hf2 : f ∉ dynOfTables rest := by
            intro hm
            exact hf (by
              simp only [dynOfTables, List.cons_bind, List.mem_append]
              exact Or.inr (by simpa [dynOfTables] using hm))
          rw [hcntB f hf2, hcntA f hf1]

theorem pubOids_append (a b : List DbRecord) :
    pubOids (a ++ b) = pubOids a ++ pubOids b := by
  unfold pubOids
  exact List.filterMap_append a b _

theorem pubOids_eq_nil {recs : List DbRecord}
    (h : ∀ r ∈ recs, r.table_name ≠ "publicobject") : pubOids recs = [] := by
  unfold pubOids
  rw [List.filterMap_eq_nil]
  intro r hr
  have hb : (r.table_name == "publicobject") = false := by
    simpa using h r hr
  simp [hb]

theorem pubOids_cons_pub (v : String) (t : List (String × String))
    (rid : Option String) (rest : List DbRecord) :
    pubOids (⟨"publicobject", ("_oid", v) :: t, rid⟩ :: rest) = v :: pubOids rest := rfl

/-- Evaluating a role list whose attribute maps are all the shared
PUBLIC_OBJECT_MAP emits records whose _oid values are the consecutive
counter-0 identifiers starting right after the incoming counter, and
advances counter 0 by exactly the number of emitted records. -/
theorem evalRoles_pub (rid : Option String) (row : Row) :
    ∀ (roles : List (String × RecordSpec)),
      (∀ r ∈ roles, r.2.attr_map = PUBLIC_OBJECT_MAP) →
      ∀ (c : Counters) (x : XrefSet) (recs : List DbRecord) (c2 : Counters) (x2 : XrefSet),
        evalRoles "publicobject" rid row roles c x = some (recs, c2, x2) →
        ∃ k, pubOids recs = (List.range' (c 0 + 1) k).map toString ∧ c2 0 = c 0 + k := by
  intro roles
  induction roles with
  | nil =>
    intro _ c x recs c2 x2 h
    injection h with h1
    have hr : ([] : List DbRecord) = recs := congrArg Prod.fst h1
    have hc : c = c2 := congrArg (fun p => p.2.1) h1
    rw [← hr, ← hc]
    exact ⟨0, rfl, rfl⟩
  | cons rs rest ih =>
    rcases rs with ⟨role, S⟩
    intro hmaps c x recs c2 x2 h
    have hmap : S.attr_map = PUBLIC_OBJECT_MAP :=
      hmaps (role, S) (List.mem_cons_self _ _)
    have hmapsrest : ∀ r ∈ rest, r.2.attr_map = PUBLIC_OBJECT_MAP :=
      fun r hr => hmaps r (List.mem_cons_of_mem _ hr)
    rcases hc : S.condition row with _ | b
    · rw [evalRoles_cons,
        evalRecordSpec_none S "publicobject" rid row c x hc] at h
      exact Option.noConfusion h
    · cases b with
      | false =>
        have hfalse := evalRecordSpec_false S "publicobject" rid row c x hc
        rw [evalRoles_cons_none "publicobject" role S rest rid row c x c hfalse] at h
        exact ih hmapsrest c x recs c2 x2 h
      | true =>
        have htrue : evalRecordSpec S "publicobject" rid row c x =
            some (some ⟨"publicobject",
              [("_oid", toString (c 0 + 1)), ("date", "now()")], rid⟩,
              updateC c 0 (c 0 + 1)) := by
          rw [evalRecordSpec_true S "publicobject" rid row c x hc, hmap]
          rfl
        rw [evalRoles_cons_some "publicobject" role S rest rid row c x _ _ htrue] at h
        rcases he : evalRoles "publicobject" rid row rest (updateC c 0 (c 0 + 1))
            ((("publicobject", role),
              (⟨"publicobject", [("_oid", toString (c 0 + 1)), ("date", "now()")],
                rid⟩ : DbRecord)) :: x) with _ | ⟨recs1, cq, xq⟩
        · rw [he] at h
          exact Option.noConfusion h
        · rw [he] at h
          simp only [Option.map_some'] at h
          injection h with h1
          have hrecs : _ :: recs1 = recs := congrArg Prod.fst h1
          have hcq : cq = c2 := congrArg (fun p => p.2.1) h1
          obtain ⟨k, hp, hcnt⟩ := ih hmapsrest (updateC c 0 (c 0 + 1)) _ recs1 cq xq he
          have hu0 : updateC c 0 (c 0 + 1) 0 = c 0 + 1 := by
            unfold updateC
            rw [if_pos rfl]
          refine ⟨k + 1, ?_, ?_⟩
          · rw [← hrecs, pubOids_cons_pub, hp, hu0]
            rw [show c 0 + 1 + 1 = c 0 + 1 + 1 from rfl]
            rw [List.range'_succ (c 0 + 1) k 1]
            rfl
          · rw [← hcq, hcnt, hu0]
            omega

/-- An import specification whose first table is publicobject (with all
roles sharing PUBLIC_OBJECT_MAP) and whose remaining tables neither are
publicobject nor use factory 0 emits, per row, publicobject _oids that
continue counter 0 consecutively. -/
theorem evalTables_pub_head (roles : List (String × RecordSpec)) (rest : ImportSpec)
    (hmaps : ∀ r ∈ roles, r.2.attr_map = PUBLIC_OBJECT_MAP)
    (hnp : ∀ tr ∈ rest, tr.1 ≠ "publicobject")
    (h0 : 0 ∉ dynOfTables rest)
    (rid : Option String) (row : Row) (c : Counters) (x : XrefSet)
    (recs : List DbRecord) (c2 : Counters) (x2 : XrefSet)
    (h : evalTables rid row (("publicobject", roles) :: rest) c x = some (recs, c2, x2)) :
    ∃ k, pubOids recs = (List.range' (c 0 + 1) k).map toString ∧ c2 0 = c 0 + k := by
  rw [evalTables_cons] at h
  rcases h1 : evalRoles "publicobject" rid row roles c x with _ | ⟨recs1, cm, xm⟩
  · rw [h1] at h
    exact Option.noConfusion h
  · rw [h1] at h
    simp only [Option.some_bind] at h
    rcases h2 : evalTables rid row rest cm xm with _ | ⟨recs2, cr, xr⟩
    · rw [h2] at h
      exact Option.noConfusion h
    · rw [h2] at h
      simp only [Option.map_some'] at h
      injection h with h1p
      have hrecs : recs1 ++ recs2 = recs := congrArg Prod.fst h1p
      have hcr : cr = c2 := congrArg (fun p => p.2.1) h1p
      obtain ⟨k, hp, hcnt⟩ := evalRoles_pub rid row roles hmaps c x recs1 cm xm h1
      obtain ⟨hrecB, hcntB⟩ := evalTables_shape rid row rest cm xm recs2 cr xr h2
      have hnil : pubOids recs2 = [] := by
        apply pubOids_eq_nil
        intro r hr
        obtain ⟨tr, htr, heq⟩ := hrecB r hr
        rw [heq]
        exact hnp tr htr
      refine ⟨k, ?_, ?_⟩
      · rw [← hrecs, pubOids_append, hp, hnil, List.append_nil]
      · rw [← hcr, hcntB 0 h0, hcnt]

/-- Running the importer over a row list with a specification whose
per-row publicobject _oids continue counter 0 consecutively produces,
over the whole run, a consecutive publicobject _oid sequence continuing
counter 0. -/
theorem importRows_pub (S : ImportSpec)
    (hS : ∀ (rid : Option String) (row : Row) (c : Counters) (x : XrefSet)
      (recs : List DbRecord) (c2 : Counters) (x2 : XrefSet),
      evalTables rid row S c x = some (recs, c2, x2) →
      ∃ k, pubOids recs = (List.range' (c 0 + 1) k).map toString ∧ c2 0 = c 0 + k) :
    ∀ (rows : List Row) (id_col : Option String) (c : Counters) (x : XrefSet)
      (recs : List DbRecord) (c2 : Counters) (x2 : XrefSet),
      importRows S id_col rows c x = some (recs, c2, x2) →
      ∃ K, pubOids recs = (List.range' (c 0 + 1) K).map toString ∧ c2 0 = c 0 + K := by
  intro rows
  induction rows with
  | nil =>
    intro id_col c x recs c2 x2 h
    injection h with h1
    have hr : ([] : List DbRecord) = recs := congrArg Prod.fst h1
    have hc : c = c2 := congrArg (fun p => p.2.1) h1
    rw [← hr, ← hc]
    exact ⟨0, rfl, rfl⟩
  | cons row rest ih =>
    intro id_col c x recs c2 x2 h
    rw [importRows_cons] at h
    rcases hr : rowIdFor id_col row with _ | rid
    · rw [hr] at h
      exact Option.noConfusion h
    · rw [hr] at h
      simp only [Option.some_bind] at h
      rcases he : evalTables rid row S c x with _ | ⟨recs1, cm, xm⟩
      · rw [he] at h
        exact Option.noConfusion h
      · rw [he] at h
        simp only [Option.some_bind] at h
        rcases hi : importRows S id_col rest cm xm with _ | ⟨recs2, cr, xr⟩
        · rw [hi] at h
          exact Option.noConfusion h
        · rw [hi] at h
          simp only [Option.map_some'] at h
          injection h with h1
          have hrecs : recs1 ++ recs2 = recs := congrArg Prod.fst h1
          have hcr : cr = c2 := congrArg (fun p => p.2.1) h1
          obtain ⟨k, hp1, hc1⟩ := hS rid row c x recs1 cm xm he
          obtain ⟨K, hp2, hc2⟩ := ih id_col cm xm recs2 cr xr hi
          refine ⟨k + K, ?_, ?_⟩
          · rw [← hrecs, pubOids_append, hp1, hp2, hc1]
            rw [← List.map_append]
            have : List.range' (c 0 + 1) k ++ List.range' (c 0 + k + 1) K =
                List.range' (c 0 + 1) (k + K) := by
              have hb := List.range'_append_1 (c 0 + 1) k K
              rw [show c 0 + 1 + k = c 0 + k + 1 by omega] at hb
              rw [hb]
              rw [Nat.add_comm K k]
            rw [this]
          · rw [← hcr, hc2, hc1]
            omega

/-- The attribute map of a given table and role of an import
specification. -/
def attrMapOf (spec : ImportSpec) (t role : String) : Option (List (String × Value)) :=
  ((spec.find? (fun p => p.1 == t)).bind
    (fun p => p.2.find? (fun q => q.1 == role))).map (fun q => q.2.attr_map)

theorem dep_tables_pub (rid : Option String) (row : Row) (c : Counters) (x : XrefSet)
    (recs : List DbRecord) (c2 : Counters) (x2 : XrefSet)
    (h : evalTables rid row DEP_IMPORT_SPEC c x = some (recs, c2, x2)) :
    ∃ k, pubOids recs = (List.range' (c 0 + 1) k).map toString ∧ c2 0 = c 0 + k := by
  refine evalTables_pub_head _ _ ?_ ?_ ?_ rid row c x recs c2 x2 h
  · intro r hr
    rcases List.mem_singleton.mp hr with rfl
    rfl
  · intro tr htr
    rcases List.mem_singleton.mp htr with rfl
    decide
  · decide

theorem emp_tables_pub (departments : List DbRecord) (rid : Option String) (row : Row)
    (c : Counters) (x : XrefSet) (recs : List DbRecord) (c2 : Counters) (x2 : XrefSet)
    (h : evalTables rid row (EMP_IMPORT_SPEC departments) c x = some (recs, c2, x2)) :
    ∃ k, pubOids recs = (List.range' (c 0 + 1) k).map toString ∧ c2 0 = c 0 + k := by
  refine evalTables_pub_head _ _ ?_ ?_ ?_ rid row c x recs c2 x2 h
  · intro r hr
    rcases List.mem_cons.mp hr with hr1 | hr1
    · rw [hr1]
    · rcases List.mem_singleton.mp hr1 with rfl
      rfl
  · intro tr htr
    rcases List.mem_cons.mp htr with hr1 | hr1
    · rw [hr1]
      simp
    · rcases List.mem_singleton.mp hr1 with rfl
      simp
  · intro hmem
    simp only [dynOfTables, dynOfRoles, dynOfAttrs, EMPLOYEE_MAP, PHONE_MAP, PHONES_SPEC,
      List.cons_bind, List.nil_bind, List.filterMap_cons, List.filterMap_nil] at hmem
    simp at hmem

/-- C7: PUBLIC_OBJECT_MAP is the attribute map of the departments
pass's sole publicobject role and of both publicobject roles (emp and
phone) of the employee pass, so all three share the single factory-0
counter; consequently, for any inputs, every successful combined run of
`main` emits publicobject _oid values that form one consecutive
sequence 1, 2, ..., K across both passes, strictly increasing with no
repeats, the employee pass continuing where the department pass
stopped. -/
theorem C7_shared_public_object_counter :
    (attrMapOf DEP_IMPORT_SPEC "publicobject" "sole" = some PUBLIC_OBJECT_MAP ∧
     ∀ departments : List DbRecord,
       attrMapOf (EMP_IMPORT_SPEC departments) "publicobject" "emp" =
           some PUBLIC_OBJECT_MAP ∧
       attrMapOf (EMP_IMPORT_SPEC departments) "publicobject" "phone" =
           some PUBLIC_OBJECT_MAP) ∧
    ∀ (depRows empRows : List Row) (recs : List DbRecord),
      mainRecords depRows empRows = some recs →
      ∃ K, pubOids recs = (List.range' 1 K).map toString := by
  refine ⟨⟨rfl, fun departments => ⟨rfl, rfl⟩⟩, ?_⟩
  intro depRows empRows recs h
  unfold mainRecords at h
  rcases h1 : import_data DEP_IMPORT_SPEC depRows (some "Department") zeroC with
    _ | ⟨recs1, c1⟩
  · rw [h1] at h
    exact Option.noConfusion h
  · rw [h1] at h
    simp only [Option.some_bind] at h
    rcases h2 : import_data
        (EMP_IMPORT_SPEC (recs1.filter (fun r => r.table_name == "departments")))
        empRows none c1 with _ | ⟨recs2, c2⟩
    · rw [h2] at h
      exact Option.noConfusion h
    · rw [h2] at h
      simp only [Option.map_some'] at h
      injection h with h3
      unfold import_data at h1 h2
      rcases hh1 : importRows DEP_IMPORT_SPEC (some "Department") depRows zeroC [] with
        _ | ⟨r1, cc1, x1⟩
      · rw [hh1] at h1
        exact Option.noConfusion h1
      · rw [hh1] at h1
        simp only [Option.map_some'] at h1
        injection h1 with h1p
        have hr1 : r1 = recs1 := congrArg Prod.fst h1p
        have hc1 : cc1 = c1 := congrArg Prod.snd h1p
        rcases hh2 : importRows
            (EMP_IMPORT_SPEC (recs1.filter (fun r => r.table_name == "departments")))
            none empRows c1 [] with _ | ⟨r2, cc2, x2⟩
        · rw [hh2] at h2
          exact Option.noConfusion h2
        · rw [hh2] at h2
          simp only [Option.map_some'] at h2
          injection h2 with h2p
          have hr2 : r2 = recs2 := congrArg Prod.fst h2p
          obtain ⟨K1, hp1, hcc1⟩ := importRows_pub DEP_IMPORT_SPEC dep_tables_pub
            depRows (some "Department") zeroC [] r1 cc1 x1 hh1
          obtain ⟨K2, hp2, hcc2⟩ := importRows_pub _
            (emp_tables_pub (recs1.filter (fun r => r.table_name == "departments")))
            empRows none c1 [] r2 cc2 x2 hh2
          have hK1 : c1 0 = K1 := by
            rw [← hc1]
            simpa [zeroC] using hcc1
          refine ⟨K1 + K2, ?_⟩
          rw [← h3, pubOids_append, ← hr1, ← hr2, hp1, hp2, hK1]
          rw [show zeroC 0 + 1 = 1 from rfl]
          rw [← List.map_append]
          have hranges : List.range' 1 K1 ++ List.range' (K1 + 1) K2 =
              List.range' 1 (K1 + K2) := by
            have hb := List.range'_append_1 1 K1 K2
            rw [show 1 + K1 = K1 + 1 by omega] at hb
            rw [hb, Nat.add_comm K2 K1]
          rw [hranges]

/-- C7 witness: the concrete scenario run of two department rows and
two employee rows. -/
theorem C7_shared_public_object_counter_witness :
    ∃ recs, mainRecords depRowsS empRowsS = some recs ∧
      ∃ K, pubOids recs = (List.range' 1 K).map toString := by
  obtain ⟨recs, hr⟩ : ∃ r, mainRecords depRowsS empRowsS = some r := ⟨_, rfl⟩
  exact ⟨recs, hr, C7_shared_public_object_counter.2 depRowsS empRowsS recs hr⟩
